import Mathlib

/-!
Verification of the WhatsApp session-provisioning service (server.js and its
variants).  The definitions below are shallow embeddings of the JavaScript
source: pure fragments become Lean functions, the filesystem becomes an
association list from paths (component lists) to file data, and the event
handlers become functions from events to action traces / state transformers.
-/

namespace Who

/-! ## Pairing-code formatting

Embedding of the expression `code.match(/.{1,4}/g)?.join('-') || code`
(server.js line 210, and identically in the other variants).  The regex
`/.{1,4}/g` greedily matches runs of one to four non-newline characters,
skipping characters (newlines) at which no match can start; `match` returns
`null` when there is no match at all, in which case `|| code` returns the
original string. -/

/-- One pass of the global regex scan `/.{1,4}/g`: `cur` is the current
partial match (at most 3 characters); a newline ends the current match and
is skipped; a fourth character completes a match. -/
def goChunks : List Char → List Char → List (List Char)
  | cur, [] => if cur = [] then [] else [cur]
  | cur, c :: cs =>
    if c = '\n' then
      if cur = [] then goChunks [] cs else cur :: goChunks [] cs
    else if cur.length = 3 then (cur ++ [c]) :: goChunks [] cs
    else goChunks (cur ++ [c]) cs

/-- All matches of `/.{1,4}/g` over a character list. -/
def chunksJS (l : List Char) : List (List Char) :=
  goChunks [] l

/-- The formatting expression `code.match(/.{1,4}/g)?.join('-') || code`:
when the regex finds no match (`null`), the original code is returned. -/
def formatCode (code : String) : String :=
  match chunksJS code.data with
  | [] => code
  | g :: gs => String.intercalate "-" ((g :: gs).map (fun cs => String.mk cs))

theorem goChunks_flatten (l : List Char) :
    ∀ cur, (goChunks cur l).flatten = cur ++ l.filter (fun c => c != '\n') := by
  induction l with
  | nil =>
    intro cur
    by_cases h : cur = [] <;> simp [goChunks, h]
  | cons c cs ih =>
    intro cur
    by_cases hnl : c = '\n'
    · subst hnl
      by_cases h : cur = []
      · simp [goChunks, h, ih]
      · simp [goChunks, h, ih]
    · by_cases h3 : cur.length = 3
      · simp [goChunks, hnl, h3, ih, List.filter_cons, bne_iff_ne]
      · simp [goChunks, hnl, h3, ih, List.filter_cons, bne_iff_ne]

theorem goChunks_sizes (l : List Char) :
    ∀ cur, cur.length ≤ 3 → ∀ g ∈ goChunks cur l, 1 ≤ g.length ∧ g.length ≤ 4 := by
  induction l with
  | nil =>
    intro cur hcur g hg
    by_cases h : cur = []
    · simp [goChunks, h] at hg
    · simp [goChunks, h] at hg
      subst hg
      exact ⟨List.length_pos.mpr h, by omega⟩
  | cons c cs ih =>
    intro cur hcur g hg
    by_cases hnl : c = '\n'
    · subst hnl
      by_cases h : cur = []
      · simp [goChunks, h] at hg
        exact ih [] (by simp) g hg
      · simp [goChunks, h] at hg
        rcases hg with hg | hg
        · subst hg
          exact ⟨List.length_pos.mpr h, by omega⟩
        · exact ih [] (by simp) g hg
    · by_cases h3 : cur.length = 3
      · simp [goChunks, hnl, h3] at hg
        rcases hg with hg | hg
        · subst hg
          simp [h3]
        · exact ih [] (by simp) g hg
      · simp [goChunks, hnl, h3] at hg
        exact ih (cur ++ [c]) (by simp; omega) g hg

theorem goChunks_not_last_four (l : List Char) :
    ∀ cur, (∀ c ∈ l, c ≠ '\n') → cur.length ≤ 3 →
      ∀ i, i + 1 < (goChunks cur l).length → ((goChunks cur l).getD i []).length = 4 := by
  induction l with
  | nil =>
    intro cur _ _ i hi
    by_cases h : cur = [] <;> simp [goChunks, h] at hi
  | cons c cs ih =>
    intro cur hnl hcur i hi
    have hc : c ≠ '\n' := hnl c (by simp)
    have hnl2 : ∀ a ∈ cs, a ≠ '\n' := fun a ha => hnl a (by simp [ha])
    by_cases h3 : cur.length = 3
    · simp only [goChunks, if_neg hc, if_pos h3] at hi ⊢
      cases i with
      | zero => simp [h3]
      | succ j =>
        simp only [List.getD_cons_succ]
        exact ih [] hnl2 (by simp) j (by simp at hi; omega)
    · simp only [goChunks, if_neg hc, if_neg h3] at hi ⊢
      exact ih (cur ++ [c]) hnl2 (by simp; omega) i hi

theorem data_ne_nil_of_ne_empty {s : String} (h : s ≠ "") : s.data ≠ [] := by
  intro hd
  apply h
  cases s
  simp at hd
  simp [hd]

/-- C8: for every non-empty raw pairing code (pairing codes contain no
newline), the formatter splits it into groups of 4 characters joined by '-':
"ABCDEFGH" formats to "ABCD-EFGH", and when the length is not divisible by 4
the final group is shorter ("ABCDEFG" formats to "ABCD-EFG") without error:
there is a non-empty group list whose groups concatenate back to the raw
code, every group has length 1..4, every group except the last has length
exactly 4, and the result is the groups joined by '-'. -/
theorem formatCode_groups_of_four (s : String) (h1 : s ≠ "")
    (h2 : ∀ c ∈ s.data, c ≠ '\n') :
    formatCode "ABCDEFGH" = "ABCD-EFGH" ∧ formatCode "ABCDEFG" = "ABCD-EFG" ∧
    ∃ gs : List (List Char), gs ≠ [] ∧
      formatCode s = String.intercalate "-" (gs.map (fun cs => String.mk cs)) ∧
      gs.flatten = s.data ∧
      (∀ g ∈ gs, 1 ≤ g.length ∧ g.length ≤ 4) ∧
      (∀ i, i + 1 < gs.length → (gs.getD i []).length = 4) := by
  have hfil : s.data.filter (fun c => c != '\n') = s.data :=
    List.filter_eq_self.mpr (fun a ha => by simp [bne_iff_ne]; exact h2 a ha)
  have hflat : (chunksJS s.data).flatten = s.data := by
    simpa [chunksJS, hfil] using goChunks_flatten s.data []
  have hne : chunksJS s.data ≠ [] := by
    intro hnil
    rw [hnil] at hflat
    exact data_ne_nil_of_ne_empty h1 (by simpa using hflat.symm)
  refine ⟨by decide, by decide, chunksJS s.data, hne, ?_, hflat,
    goChunks_sizes s.data [] (by simp),
    goChunks_not_last_four s.data [] h2 (by simp)⟩
  cases hch : chunksJS s.data with
  | nil => exact absurd hch hne
  | cons g gs => simp [formatCode, hch]

/-- Witness for C8 at the concrete raw code "ABCDEFG" (length 7, short final
group). -/
theorem formatCode_groups_of_four_witness :
    (("ABCDEFG" : String) ≠ "" ∧ ∀ c ∈ ("ABCDEFG" : String).data, c ≠ '\n') ∧
    (formatCode "ABCDEFGH" = "ABCD-EFGH" ∧ formatCode "ABCDEFG" = "ABCD-EFG" ∧
      ∃ gs : List (List Char), gs ≠ [] ∧
        formatCode "ABCDEFG" =
          String.intercalate "-" (gs.map (fun cs => String.mk cs)) ∧
        gs.flatten = ("ABCDEFG" : String).data ∧
        (∀ g ∈ gs, 1 ≤ g.length ∧ g.length ≤ 4) ∧
        (∀ i, i + 1 < gs.length → (gs.getD i []).length = 4)) :=
  ⟨⟨by decide, by decide⟩,
    formatCode_groups_of_four "ABCDEFG" (by decide) (by decide)⟩

/-- C10: the pairing-code formatting expression is total: for the empty raw
code the regex match yields no groups and the fallback returns the original
code unchanged, and for every string the result is either the input itself
(no match) or the grouped form: non-empty groups of 1..4 characters joined
by '-', whose concatenation is the input's non-newline characters. -/
theorem formatCode_total : formatCode "" = "" ∧
    ∀ s : String, formatCode s = s ∨
      ∃ gs : List (List Char), gs ≠ [] ∧
        (∀ g ∈ gs, 1 ≤ g.length ∧ g.length ≤ 4) ∧
        gs.flatten = s.data.filter (fun c => c != '\n') ∧
        formatCode s = String.intercalate "-" (gs.map (fun cs => String.mk cs)) := by
  refine ⟨rfl, fun s => ?_⟩
  cases hch : chunksJS s.data with
  | nil => exact Or.inl (by simp [formatCode, hch])
  | cons g gs =>
    refine Or.inr ⟨g :: gs, by simp, ?_, ?_, by simp [formatCode, hch]⟩
    · rw [← hch]
      exact goChunks_sizes s.data [] (by simp)
    · rw [← hch]
      simpa [chunksJS] using goChunks_flatten s.data []

/-- Witness for C10 applied at the concrete string "AB". -/
theorem formatCode_total_witness : formatCode "" = "" ∧
    (formatCode "AB" = "AB" ∨
      ∃ gs : List (List Char), gs ≠ [] ∧
        (∀ g ∈ gs, 1 ≤ g.length ∧ g.length ≤ 4) ∧
        gs.flatten = ("AB" : String).data.filter (fun c => c != '\n') ∧
        formatCode "AB" =
          String.intercalate "-" (gs.map (fun cs => String.mk cs))) :=
  ⟨formatCode_total.1, formatCode_total.2 "AB"⟩

/-! ## Pairing-code retry loop

Embedding of the `/pair` retry loop (server.js lines 193-208, identical in
the other variants):

  for (let attempt = 0; attempt < maxRetries; attempt++) {
    try { code = await sock.requestPairingCode(phoneNumber); if (code) break; }
    catch (error) { errorLog(...); }
    await new Promise((r) => setTimeout(r, 2000));
  }
  if (!code) throw new Error('Max retries reached. ...');

The underlying call is modelled by an oracle from the attempt index to
`Option String`: `none` models a thrown error, `some c` a returned code
(an empty code is falsy, so the loop does not break on it). -/

/-- Observable events of the retry loop: an attempt (its index) and a
`setTimeout` delay in milliseconds. -/
inductive PairEvent where
  | attempt (n : Nat) : PairEvent
  | delayMs (ms : Nat) : PairEvent
deriving DecidableEq, Repr

/-- The body of the `for` loop: `i` is the attempt index, the fuel is the
remaining iterations (`maxRetries - i`), and `code` is the current value of
the `code` variable.  Returns the final value of `code` and the event
trace. -/
def retryGo (oracle : Nat → Option String) :
    Nat → Nat → Option String → Option String × List PairEvent
  | _, 0, code => (code, [])
  | i, fuel + 1, code =>
    match oracle i with
    | some c =>
      if c = "" then
        let r := retryGo oracle (i + 1) fuel (some c)
        (r.1, PairEvent.attempt i :: PairEvent.delayMs 2000 :: r.2)
      else (some c, [PairEvent.attempt i])
    | none =>
      let r := retryGo oracle (i + 1) fuel code
      (r.1, PairEvent.attempt i :: PairEvent.delayMs 2000 :: r.2)

/-- The whole retry block with `maxRetries = 3`, including the final
`if (!code) throw`: `Except.error ()` is the `PairingExhausted` failure. -/
def requestPairingCode3 (oracle : Nat → Option String) :
    Except Unit String × List PairEvent :=
  let r := retryGo oracle 0 3 none
  match r.1 with
  | some c => if c = "" then (Except.error (), r.2) else (Except.ok c, r.2)
  | none => (Except.error (), r.2)

/-- C2 counterexample: against an always-failing underlying call the loop's
event trace is NOT "three attempts with a delay only between consecutive
attempts" — the claimed trace (no delay after the final attempt) differs
from the actual one, because `setTimeout` also runs after the third failed
attempt. -/
theorem requestPairingCode3_trailing_delay_cx :
    (requestPairingCode3 (fun _ => none)).2 ≠
      [PairEvent.attempt 0, PairEvent.delayMs 2000, PairEvent.attempt 1,
       PairEvent.delayMs 2000, PairEvent.attempt 2] := by
  decide

/-- C2 amended: when the underlying call fails on every attempt, the
orchestration makes exactly 3 attempts with a 2-second delay after each
failed attempt — including after the final one — and then yields the
`PairingExhausted` failure rather than a code. -/
theorem requestPairingCode3_exhausts (oracle : Nat → Option String)
    (h : ∀ i, i < 3 → oracle i = none) :
    requestPairingCode3 oracle =
      (Except.error (),
       [PairEvent.attempt 0, PairEvent.delayMs 2000, PairEvent.attempt 1,
        PairEvent.delayMs 2000, PairEvent.attempt 2, PairEvent.delayMs 2000]) := by
  have h0 := h 0 (by omega)
  have h1 := h 1 (by omega)
  have h2 := h 2 (by omega)
  simp [requestPairingCode3, retryGo, h0, h1, h2]

/-- Witness for C2's amended theorem at the always-failing oracle. -/
theorem requestPairingCode3_exhausts_witness :
    (∀ i, i < 3 → (fun _ => (none : Option String)) i = none) ∧
    requestPairingCode3 (fun _ => none) =
      (Except.error (),
       [PairEvent.attempt 0, PairEvent.delayMs 2000, PairEvent.attempt 1,
        PairEvent.delayMs 2000, PairEvent.attempt 2, PairEvent.delayMs 2000]) :=
  ⟨fun _ _ => rfl, requestPairingCode3_exhausts (fun _ => none) (fun _ _ => rfl)⟩

/-! ## Filesystem model, credential persistence, and the archiver

The filesystem is an association list from absolute paths (lists of
`path.join` components) to file data; a zip archive is itself a file datum
holding its entries (relative path, data).  `zipSession(sessionPath,
sessionZipPath)` (server.js lines 37-47) pipes an archive of everything
under `sessionPath` into a write stream opened at `sessionZipPath`:
`archive.directory(sessionPath, false)` recursively includes all files under
the source directory with paths relative to it. -/

/-- File contents: plain text, or a zip archive holding its entries
(relative path components, data). -/
inductive FileData where
  | text (s : String) : FileData
  | zip (entries : List (List String × FileData)) : FileData

instance : Inhabited FileData := ⟨FileData.text ""⟩

/-- A filesystem: paths (component lists) mapped to file data. -/
abbrev FS := List (List String × FileData)

/-- Look up the file stored at path `p`. -/
def getFile : FS → List String → Option FileData
  | [], _ => none
  | (q, d) :: rest, p => if q = p then some d else getFile rest p

/-- Create or overwrite the file at path `p`. -/
def setFile : FS → List String → FileData → FS
  | [], p, d => [(p, d)]
  | (q, e) :: rest, p, d =>
    if q = p then (p, d) :: rest else (q, e) :: setFile rest p d

/-- Strip a directory path off the front of a file path; `some rel` exactly
when the file path is `dir ++ rel`. -/
def stripUnder : List String → List String → Option (List String)
  | [], p => some p
  | _ :: _, [] => none
  | d :: ds, x :: xs => if x = d then stripUnder ds xs else none

/-- All files under a directory, keyed by their path relative to it: the
entry set that `archive.directory(dir, false)` packs. -/
def filesUnder : FS → List String → FS
  | [], _ => []
  | (p, d) :: rest, dir =>
    match stripUnder dir p with
    | some rel => (rel, d) :: filesUnder rest dir
    | none => filesUnder rest dir

/-- The `session` directory next to the server script
(`path.join(__dirname, 'session')`, server.js line 19). -/
def sessionDirP : List String := ["session"]

/-- `getSessionZipPath` (server.js lines 50-51):
`path.join(sessionDir, sessionName + '.zip')`. -/
def getSessionZipPath (sessionName : String) : List String :=
  sessionDirP ++ [sessionName ++ ".zip"]

/-- `saveCreds` of the multi-file auth state: persists each credential file
into the session directory (one file per credential name). -/
def saveCredsFs (dir : List String) : List (String × String) → FS → FS
  | [], fs => fs
  | (n, c) :: rest, fs =>
    saveCredsFs dir rest (setFile fs (dir ++ [n]) (FileData.text c))

/-- `zipSession(src, dst)`: writes at `dst` a zip of everything under
`src` (the entry snapshot is taken from the pre-write state). -/
def packDirFs (fs : FS) (src dst : List String) : FS :=
  setFile fs dst (FileData.zip (filesUnder fs src))

/-- The `creds.update` handler of server.js `/pair` (lines 163-168; the
default socket's handler at lines 77-82 is identical): `await saveCreds()`,
then `zipSession(sessionDir, getSessionZipPath('session'))` — the archive
destination lies inside the zipped directory. -/
def credsUpdateServer (creds : List (String × String)) (fs : FS) : FS :=
  packDirFs (saveCredsFs sessionDirP creds fs) sessionDirP
    (getSessionZipPath "session")

/-- The steps a `creds.update` handler runs, in order. -/
inductive HandlerStep where
  | persist : HandlerStep
  | pack (src dst : List String) : HandlerStep
deriving DecidableEq, Repr

/-- Step trace of the server.js `creds.update` handler: persist the
credentials, then archive the session directory to the session zip path. -/
def credsUpdateSteps : List HandlerStep :=
  [HandlerStep.persist, HandlerStep.pack sessionDirP (getSessionZipPath "session")]

/-- The last value written for credential name `n` by a list of credential
writes processed left to right. -/
def lastWrite : List (String × String) → String → Option String
  | [], _ => none
  | (m, c) :: rest, n =>
    match lastWrite rest n with
    | some c2 => some c2
    | none => if m = n then some c else none

theorem getFile_setFile_self (fs : FS) (p : List String) (d : FileData) :
    getFile (setFile fs p d) p = some d := by
  induction fs with
  | nil => simp [setFile, getFile]
  | cons e rest ih =>
    obtain ⟨q, v⟩ := e
    by_cases h : q = p
    · simp [setFile, getFile, h]
    · simp [setFile, getFile, h, ih]

theorem getFile_setFile_ne (fs : FS) (p q : List String) (d : FileData)
    (h : p ≠ q) : getFile (setFile fs q d) p = getFile fs p := by
  have hqp : q ≠ p := Ne.symm h
  induction fs with
  | nil => simp [setFile, getFile, hqp]
  | cons e rest ih =>
    obtain ⟨r, v⟩ := e
    by_cases hr : r = q
    · subst hr
      simp [setFile, getFile, hqp]
    · simp only [setFile, if_neg hr, getFile]
      by_cases hrp : r = p <;> simp [hrp, ih]

theorem stripUnder_append (dir rest : List String) :
    stripUnder dir (dir ++ rest) = some rest := by
  induction dir with
  | nil => simp [stripUnder]
  | cons d ds ih => simp [stripUnder, ih]

theorem stripUnder_eq_append {dir p rel : List String}
    (h : stripUnder dir p = some rel) : p = dir ++ rel := by
  induction dir generalizing p with
  | nil => simpa [stripUnder] using h
  | cons d ds ih =>
    cases p with
    | nil => simp [stripUnder] at h
    | cons x xs =>
      simp only [stripUnder] at h
      by_cases hx : x = d
      · rw [if_pos hx] at h
        simp [hx, ih h]
      · rw [if_neg hx] at h
        exact absurd h (by simp)

theorem getFile_filesUnder (fs : FS) (dir rel : List String) :
    getFile (filesUnder fs dir) rel = getFile fs (dir ++ rel) := by
  induction fs with
  | nil => simp [filesUnder, getFile]
  | cons e rest ih =>
    obtain ⟨p, d⟩ := e
    cases hs : stripUnder dir p with
    | some r =>
      have hp : p = dir ++ r := stripUnder_eq_append hs
      simp only [filesUnder, hs, getFile]
      by_cases hr : r = rel
      · simp [hr, hp]
      · have hne : ¬ p = dir ++ rel := by
          intro hc
          exact hr (List.append_cancel_left ((hp.symm.trans hc)))
        simp [hr, hne, ih]
    | none =>
      have hne : ¬ p = dir ++ rel := by
        intro hc
        rw [hc, stripUnder_append] at hs
        exact absurd hs (by simp)
      simp only [filesUnder, hs, getFile]
      simp [hne, ih]

theorem getFile_some_mem {fs : FS} {p : List String} {d : FileData}
    (h : getFile fs p = some d) : (p, d) ∈ fs := by
  induction fs with
  | nil => simp [getFile] at h
  | cons e rest ih =>
    obtain ⟨q, v⟩ := e
    by_cases hq : q = p
    · simp only [getFile, if_pos hq] at h
      injection h with hv
      simp [hq, hv]
    · simp only [getFile, if_neg hq] at h
      exact List.mem_cons_of_mem _ (ih h)

theorem getFile_saveCreds (dir : List String) (creds : List (String × String))
    (fs : FS) (n : String) :
    getFile (saveCredsFs dir creds fs) (dir ++ [n]) =
      match lastWrite creds n with
      | some c => some (FileData.text c)
      | none => getFile fs (dir ++ [n]) := by
  induction creds generalizing fs with
  | nil => simp [saveCredsFs, lastWrite]
  | cons e rest ih =>
    obtain ⟨m, c⟩ := e
    simp only [saveCredsFs, lastWrite, ih]
    cases lastWrite rest n with
    | some c2 => simp
    | none =>
      by_cases hm : m = n
      · simp [hm, getFile_setFile_self]
      · have hne : dir ++ [n] ≠ dir ++ [m] := by
          intro hc
          exact hm (by simpa using (List.append_cancel_left hc).symm)
        simp [hm, getFile_setFile_ne _ _ _ _ hne]

theorem getFile_saveCreds_untouched (dir : List String)
    (creds : List (String × String)) (fs : FS) (p : List String)
    (h : ∀ e ∈ creds, dir ++ [e.1] ≠ p) :
    getFile (saveCredsFs dir creds fs) p = getFile fs p := by
  induction creds generalizing fs with
  | nil => simp [saveCredsFs]
  | cons e rest ih =>
    obtain ⟨m, c⟩ := e
    simp only [saveCredsFs]
    rw [ih (setFile fs (dir ++ [m]) (FileData.text c))
      (fun e2 he2 => h e2 (List.mem_cons_of_mem _ he2))]
    exact getFile_setFile_ne _ _ _ _ (Ne.symm (h (m, c) (List.mem_cons_self _ _)))

/-- C4 counterexample: starting from an empty filesystem, run the server.js
`creds.update` handler twice for the same credentials.  The second pack's
entry set — the contents of the session directory at that update — is
`creds.json` AND `session.zip`: the archive written by the first update is
itself an entry of the second archive, because the archive destination lies
inside the packed directory.  The claim's "no extra entries (such as a
previously written archive file)" is therefore false at this input. -/
theorem credsUpdate_second_archive_contains_prior_cx :
    ((filesUnder
        (saveCredsFs sessionDirP [("creds.json", "A")]
          (credsUpdateServer [("creds.json", "A")] []))
        sessionDirP).map Prod.fst) = [["creds.json"], ["session.zip"]] ∧
    getFile (credsUpdateServer [("creds.json", "A")]
        (credsUpdateServer [("creds.json", "A")] []))
      (getSessionZipPath "session") =
      some (FileData.zip (filesUnder
        (saveCredsFs sessionDirP [("creds.json", "A")]
          (credsUpdateServer [("creds.json", "A")] []))
        sessionDirP)) :=
  ⟨rfl, rfl⟩

/-- C4 amended: after a credential update the archive's entries are exactly
the files of the session directory as of that update (pack then unpack
reproduces the directory's file set), but from the second update on this
file set includes the previously written archive: whenever an archive
already exists at the destination (and the update does not overwrite a file
of that name), the new archive contains the old archive as an entry, since
server.js zips the very directory the archive is written into. -/
theorem credsUpdate_archive_roundtrip (creds : List (String × String)) (fs : FS) :
    getFile (credsUpdateServer creds fs) (getSessionZipPath "session") =
      some (FileData.zip
        (filesUnder (saveCredsFs sessionDirP creds fs) sessionDirP)) ∧
    ∀ d : FileData, getFile fs (getSessionZipPath "session") = some d →
      (∀ e ∈ creds, e.1 ≠ "session.zip") →
      (["session.zip"], d) ∈
        filesUnder (saveCredsFs sessionDirP creds fs) sessionDirP := by
  have hz : getSessionZipPath "session" = sessionDirP ++ ["session.zip"] := rfl
  constructor
  · exact getFile_setFile_self _ _ _
  · intro d hd hnames
    have huntouched :
        getFile (saveCredsFs sessionDirP creds fs) (getSessionZipPath "session") =
          getFile fs (getSessionZipPath "session") := by
      apply getFile_saveCreds_untouched
      intro e he hc
      rw [hz] at hc
      exact hnames e he (by simpa using List.append_cancel_left hc)
    apply getFile_some_mem
    rw [getFile_filesUnder, ← hz, huntouched]
    exact hd

/-- Witness for C4's amended theorem: a prior archive exists at the session
zip path; after an update writing `creds.json`, the new archive's entries
contain the old archive. -/
theorem credsUpdate_archive_roundtrip_witness :
    getFile [(getSessionZipPath "session", FileData.text "old")]
      (getSessionZipPath "session") = some (FileData.text "old") ∧
    (∀ e ∈ [("creds.json", "A")], Prod.fst e ≠ "session.zip") ∧
    (["session.zip"], FileData.text "old") ∈
      filesUnder
        (saveCredsFs sessionDirP [("creds.json", "A")]
          [(getSessionZipPath "session", FileData.text "old")])
        sessionDirP :=
  ⟨rfl, by decide,
    (credsUpdate_archive_roundtrip [("creds.json", "A")]
        [(getSessionZipPath "session", FileData.text "old")]).2
      (FileData.text "old") rfl (by decide)⟩

/-- C6: on every credential-update event the server.js handler first
persists the credentials and only then packs the session directory into the
archive: the handler's step trace is persist-then-pack for the session's
directory/archive pair, the written archive is the packed post-persist
directory, and each entry of that archive reflects the latest credential
write of the update (falling back to the pre-update file when the update
does not touch that name). -/
theorem credsUpdate_persist_then_pack (creds : List (String × String))
    (fs : FS) (n : String) :
    credsUpdateSteps =
      [HandlerStep.persist,
       HandlerStep.pack sessionDirP (getSessionZipPath "session")] ∧
    getFile (credsUpdateServer creds fs) (getSessionZipPath "session") =
      some (FileData.zip
        (filesUnder (saveCredsFs sessionDirP creds fs) sessionDirP)) ∧
    getFile (filesUnder (saveCredsFs sessionDirP creds fs) sessionDirP) [n] =
      (match lastWrite creds n with
       | some c => some (FileData.text c)
       | none => getFile fs (sessionDirP ++ [n])) := by
  refine ⟨rfl, getFile_setFile_self _ _ _, ?_⟩
  rw [getFile_filesUnder]
  exact getFile_saveCreds _ _ _ _

/-! ## The archiver's write trace (atomicity)

`zipSession` (server.js lines 37-47) opens a write stream directly at the
final destination path (`fs.createWriteStream(sessionZipPath)` truncates or
creates it), pipes the archive into it entry by entry, and resolves when the
stream closes.  There is no temporary file and no rename. -/

/-- The filesystem operations `zipSession` performs, in order: truncate-open
the destination, stream each entry, close. -/
inductive ZipOp where
  | openTrunc (dst : List String) : ZipOp
  | writeEntry (dst : List String) (e : List String × FileData) : ZipOp
  | closeOut (dst : List String) : ZipOp

/-- The path an operation touches. -/
def ZipOp.target : ZipOp → List String
  | ZipOp.openTrunc d => d
  | ZipOp.writeEntry d _ => d
  | ZipOp.closeOut d => d

/-- The operation trace of `zipSession(src, dst)` on filesystem `fs`. -/
def zipSessionOps (fs : FS) (src dst : List String) : List ZipOp :=
  ZipOp.openTrunc dst ::
    ((filesUnder fs src).map (ZipOp.writeEntry dst) ++ [ZipOp.closeOut dst])

/-- What a reader of the destination path observes after an operation:
`none` means the file does not exist yet, `some es` the entry list flushed
so far. -/
def stepObs (cur : Option FS) : ZipOp → Option FS
  | ZipOp.openTrunc _ => some []
  | ZipOp.writeEntry _ e => cur.map (fun l => l ++ [e])
  | ZipOp.closeOut _ => cur

/-- All states a reader of the destination can observe during a
`zipSession(src, dst)` call that starts from destination state `init`. -/
def obsStates (fs : FS) (src dst : List String) (init : Option FS) :
    List (Option FS) :=
  (zipSessionOps fs src dst).scanl stepObs init

/-- C5 counterexample: for a session directory holding one credential file
and no pre-existing archive, the observable states of the destination during
the pack are: absent, truncated-empty, one entry, one entry.  The
truncated-empty state is neither the initial state (absent) nor the final
archive, so a reader of the final destination path CAN observe a partially
written archive — the write is not atomic (no write-to-temp-then-rename). -/
theorem zipSession_not_atomic_cx :
    obsStates [(sessionDirP ++ ["creds.json"], FileData.text "A")] sessionDirP
        (getSessionZipPath "session") none =
      [none, some [], some [(["creds.json"], FileData.text "A")],
       some [(["creds.json"], FileData.text "A")]] ∧
    some ([] : FS) ≠ (none : Option FS) ∧
    some ([] : FS) ≠ some [(["creds.json"], FileData.text "A")] := by
  refine ⟨rfl, by simp, by simp⟩

theorem stepObs_writes_foldl (dst : List String) (es : FS) :
    ∀ acc : FS, (es.map (ZipOp.writeEntry dst)).foldl stepObs (some acc) =
      some (acc ++ es) := by
  induction es with
  | nil => intro acc; simp
  | cons e rest ih =>
    intro acc
    have h1 : stepObs (some acc) (ZipOp.writeEntry dst e) = some (acc ++ [e]) :=
      rfl
    simp only [List.map_cons, List.foldl_cons, h1]
    rw [ih (acc ++ [e])]
    simp

theorem stepObs_writes_scanl (dst : List String) (es : FS) :
    ∀ (acc : FS) (s : Option FS),
      s ∈ (es.map (ZipOp.writeEntry dst) ++ [ZipOp.closeOut dst]).scanl
        stepObs (some acc) →
      ∃ k, s = some (acc ++ es.take k) := by
  induction es with
  | nil =>
    intro acc s hs
    have he : (([] : FS).map (ZipOp.writeEntry dst) ++
        [ZipOp.closeOut dst]).scanl stepObs (some acc) = [some acc, some acc] :=
      rfl
    rw [he] at hs
    simp only [List.mem_cons, List.mem_singleton] at hs
    rcases hs with hs | hs | hs
    · exact ⟨0, by simp [hs]⟩
    · exact ⟨0, by simp [hs]⟩
    · exact absurd hs (List.not_mem_nil s)
  | cons e rest ih =>
    intro acc s hs
    rw [List.map_cons, List.cons_append] at hs
    simp only [List.scanl, List.mem_cons] at hs
    rcases hs with hs | hs
    · exact ⟨0, by simp [hs]⟩
    · have hstep : stepObs (some acc) (ZipOp.writeEntry dst e) =
          some (acc ++ [e]) := rfl
      rw [hstep] at hs
      obtain ⟨k, hk⟩ := ih (acc ++ [e]) s hs
      exact ⟨k + 1, by simp [hk, List.take_succ_cons]⟩

/-- C5 amended: a `zipSession` call touches exactly one path — the
destination archive — and no other filesystem location (every operation in
its trace targets the destination); when the trace completes, the
destination holds the full archive of the source directory; but the write
happens in place, so a reader between the truncating open and the close
observes the destination as some prefix of the final entry stream rather
than only old-or-new: atomicity from the caller's perspective does not
hold. -/
theorem zipSession_frame_and_partial_view (fs : FS) (src dst : List String)
    (init : Option FS) :
    (∀ op ∈ zipSessionOps fs src dst, ZipOp.target op = dst) ∧
    (zipSessionOps fs src dst).foldl stepObs init = some (filesUnder fs src) ∧
    (∀ s ∈ obsStates fs src dst init,
      s = init ∨ ∃ k, s = some ((filesUnder fs src).take k)) := by
  refine ⟨?_, ?_, ?_⟩
  · intro op hop
    simp [zipSessionOps] at hop
    rcases hop with h | ⟨e, he, hmem, h⟩ | h
    · subst h; rfl
    · subst h; rfl
    · subst h; rfl
  · simp only [zipSessionOps, List.foldl_cons, stepObs, List.foldl_append]
    rw [stepObs_writes_foldl dst (filesUnder fs src) []]
    simp [stepObs]
  · intro s hs
    simp only [obsStates, zipSessionOps, List.scanl, List.mem_cons] at hs
    rcases hs with hs | hs
    · exact Or.inl hs
    · simp only [stepObs] at hs
      obtain ⟨k, hk⟩ := stepObs_writes_scanl dst (filesUnder fs src) [] s hs
      exact Or.inr ⟨k, by simpa using hk⟩

/-- Witness for C5's amended theorem at a one-file session directory. -/
theorem zipSession_frame_and_partial_view_witness :
    ZipOp.target
        (ZipOp.openTrunc (getSessionZipPath "session")) =
      getSessionZipPath "session" ∧
    (zipSessionOps [(sessionDirP ++ ["creds.json"], FileData.text "A")]
        sessionDirP (getSessionZipPath "session")).foldl stepObs none =
      some (filesUnder [(sessionDirP ++ ["creds.json"], FileData.text "A")]
        sessionDirP) ∧
    ((none : Option FS) = none ∨
      ∃ k, (none : Option FS) =
        some ((filesUnder [(sessionDirP ++ ["creds.json"], FileData.text "A")]
          sessionDirP).take k)) :=
  ⟨(zipSession_frame_and_partial_view
      [(sessionDirP ++ ["creds.json"], FileData.text "A")] sessionDirP
      (getSessionZipPath "session") none).1
    (ZipOp.openTrunc (getSessionZipPath "session")) (by simp [zipSessionOps]),
   (zipSession_frame_and_partial_view
      [(sessionDirP ++ ["creds.json"], FileData.text "A")] sessionDirP
      (getSessionZipPath "session") none).2.1,
   (zipSession_frame_and_partial_view
      [(sessionDirP ++ ["creds.json"], FileData.text "A")] sessionDirP
      (getSessionZipPath "session") none).2.2 none
     (by
      rw [show obsStates [(sessionDirP ++ ["creds.json"], FileData.text "A")]
            sessionDirP (getSessionZipPath "session") none =
          [none, some [], some [(["creds.json"], FileData.text "A")],
           some [(["creds.json"], FileData.text "A")]] from rfl]
      exact List.mem_cons_self _ _)⟩

/-! ## Session identifier allocation

Embedding of `generateRandomId` (part_001 line 135:
`Math.floor(10000000 + Math.random() * 90000000)`) and the `/pair` session
name `` `${phoneNumber}-${randomId}` `` (part_001 lines 207-208).
`Math.random()` returns a real in `[0, 1)`, so
`Math.floor(Math.random() * 90000000)` is a natural number `r < 90000000`;
`r` is the model of the random draw.  The template literal renders the
number in decimal. -/

/-- Decimal digit character. -/
def digitChar (n : Nat) : Char :=
  if n = 0 then '0'
  else if n = 1 then '1'
  else if n = 2 then '2'
  else if n = 3 then '3'
  else if n = 4 then '4'
  else if n = 5 then '5'
  else if n = 6 then '6'
  else if n = 7 then '7'
  else if n = 8 then '8'
  else '9'

/-- Little-endian decimal digits of `n`, with explicit fuel (any fuel above
`n` suffices). -/
def natDigitsRevAux : Nat → Nat → List Char
  | _, 0 => []
  | n, fuel + 1 =>
    if n < 10 then [digitChar n]
    else digitChar (n % 10) :: natDigitsRevAux (n / 10) fuel

/-- Little-endian decimal digits of `n`. -/
def natDigitsRev (n : Nat) : List Char :=
  natDigitsRevAux n (n + 1)

/-- Decimal rendering of a natural number, as the JS template literal
renders a Number. -/
def natToString (n : Nat) : String :=
  String.mk (natDigitsRev n).reverse

theorem digitChar_inj : ∀ a < 10, ∀ b < 10, digitChar a = digitChar b → a = b := by
  decide

theorem natDigitsRevAux_ne_nil (n fuel : Nat) :
    natDigitsRevAux n (fuel + 1) ≠ [] := by
  by_cases h : n < 10 <;> simp [natDigitsRevAux, h]

theorem natDigitsRevAux_mono (fuel : Nat) :
    ∀ g n, n < fuel → fuel ≤ g → natDigitsRevAux n fuel = natDigitsRevAux n g := by
  induction fuel with
  | zero => intro g n hn; omega
  | succ f ih =>
    intro g n hn hg
    cases g with
    | zero => omega
    | succ g2 =>
      by_cases h : n < 10
      · simp [natDigitsRevAux, h]
      · have hdiv : n / 10 < n := Nat.div_lt_self (by omega) (by omega)
        simp only [natDigitsRevAux, if_neg h]
        rw [ih g2 (n / 10) (by omega) (by omega)]

theorem natDigitsRevAux_inj (fuel : Nat) :
    ∀ n m, n < fuel → m < fuel →
      natDigitsRevAux n fuel = natDigitsRevAux m fuel → n = m := by
  induction fuel with
  | zero => intro n m hn; omega
  | succ f ih =>
    intro n m hn hm h
    by_cases h1 : n < 10 <;> by_cases h2 : m < 10
    · simp only [natDigitsRevAux, if_pos h1, if_pos h2, List.cons.injEq] at h
      exact digitChar_inj n h1 m h2 h.1
    · simp only [natDigitsRevAux, if_pos h1, if_neg h2, List.cons.injEq] at h
      have hf : f ≠ 0 := by omega
      obtain ⟨f2, rfl⟩ := Nat.exists_eq_succ_of_ne_zero hf
      exact absurd h.2.symm (natDigitsRevAux_ne_nil (m / 10) f2)
    · simp only [natDigitsRevAux, if_neg h1, if_pos h2, List.cons.injEq] at h
      have hf : f ≠ 0 := by omega
      obtain ⟨f2, rfl⟩ := Nat.exists_eq_succ_of_ne_zero hf
      exact absurd h.2 (natDigitsRevAux_ne_nil (n / 10) f2)
    · simp only [natDigitsRevAux, if_neg h1, if_neg h2, List.cons.injEq] at h
      have hmod : n % 10 = m % 10 :=
        digitChar_inj (n % 10) (by omega) (m % 10) (by omega) h.1
      have hn10 : n / 10 < n := Nat.div_lt_self (by omega) (by omega)
      have hm10 : m / 10 < m := Nat.div_lt_self (by omega) (by omega)
      have hdiv : n / 10 = m / 10 :=
        ih (n / 10) (m / 10) (by omega) (by omega) h.2
      have e1 := Nat.div_add_mod n 10
      have e2 := Nat.div_add_mod m 10
      omega

theorem natDigitsRev_inj {n m : Nat} (h : natDigitsRev n = natDigitsRev m) :
    n = m := by
  have hn : natDigitsRev n = natDigitsRevAux n (max n m + 1) :=
    natDigitsRevAux_mono (n + 1) (max n m + 1) n (by omega) (by omega)
  have hm : natDigitsRev m = natDigitsRevAux m (max n m + 1) :=
    natDigitsRevAux_mono (m + 1) (max n m + 1) m (by omega) (by omega)
  exact natDigitsRevAux_inj (max n m + 1) n m (by omega) (by omega)
    ((hn.symm.trans h).trans hm)

theorem natToString_inj {n m : Nat} (h : natToString n = natToString m) :
    n = m := by
  have hd : (natDigitsRev n).reverse = (natDigitsRev m).reverse := by
    have := congrArg String.data h
    simpa [natToString] using this
  have := congrArg List.reverse hd
  simp only [List.reverse_reverse] at this
  exact natDigitsRev_inj this

/-- `generateRandomId` (part_001 line 135):
`Math.floor(10000000 + Math.random() * 90000000)` where `r < 90000000`
models `Math.floor(Math.random() * 90000000)`. -/
def generateRandomId (r : Nat) : Nat :=
  10000000 + r

/-- The `/pair` session name of part_001 (lines 207-208):
`` `${phoneNumber}-${randomId}` ``. -/
def part001SessionName (phone : String) (r : Nat) : String :=
  phone ++ "-" ++ natToString (generateRandomId r)

/-- `fs.ensureDirSync(path)`: create the directory if absent. -/
def ensureDirList (dirs : List (List String)) (p : List String) :
    List (List String) :=
  if p ∈ dirs then dirs else p :: dirs

/-- The identifiers returned by N concurrent `/pair` allocations, given the
random draw of each call: each call draws once — there is no collision check
and no re-roll. -/
def part001AllocIds (phone : String) (draws : List Nat) : List String :=
  draws.map (part001SessionName phone)

theorem strAppend_data (a b : String) :
    (a ++ b).data = a.data ++ b.data := by
  cases a
  cases b
  rfl

theorem string_mk_data (s : String) : String.mk s.data = s := by
  cases s
  rfl

theorem part001SessionName_injective (phone : String) :
    Function.Injective (part001SessionName phone) := by
  intro r1 r2 h
  have hd := congrArg String.data h
  rw [part001SessionName, part001SessionName, strAppend_data, strAppend_data,
    strAppend_data, strAppend_data] at hd
  have hs : (natToString (generateRandomId r1)).data =
      (natToString (generateRandomId r2)).data := by
    simpa [List.append_assoc] using hd
  have hmk := congrArg String.mk hs
  rw [string_mk_data, string_mk_data] at hmk
  have hid := natToString_inj hmk
  simpa [generateRandomId] using hid

/-- C7 counterexample: two concurrent `/pair` allocations for the same
phone number whose random draws coincide return the SAME session
identifier: the code draws once per call and never checks for collisions
(no re-roll), so the returned identifiers are not pairwise distinct. -/
theorem part001_allocate_collision_cx :
    ¬ (part001AllocIds "2347087243475" [7, 7]).Nodup := by
  decide

/-- C7 amended: the random suffix is always exactly 8 digits (the id lies
in [10000000, 99999999]); the backing directory is created if absent (and
left unchanged if present); and the identifiers of N concurrent allocate
calls are pairwise distinct whenever their random draws are pairwise
distinct — but the code performs a single draw per call with no collision
check, so equal draws yield identical identifiers. -/
theorem part001_allocate_amended :
    (∀ r, r < 90000000 →
      10000000 ≤ generateRandomId r ∧ generateRandomId r ≤ 99999999) ∧
    (∀ (phone : String) (draws : List Nat), draws.Nodup →
      (part001AllocIds phone draws).Nodup) ∧
    (∀ (dirs : List (List String)) (pth : List String),
      pth ∈ ensureDirList dirs pth ∧ (pth ∈ dirs → ensureDirList dirs pth = dirs)) := by
  refine ⟨?_, ?_, ?_⟩
  · intro r hr
    simp only [generateRandomId]
    omega
  · intro phone draws hnd
    exact hnd.map (part001SessionName_injective phone)
  · intro dirs pth
    constructor
    · by_cases h : pth ∈ dirs <;> simp [ensureDirList, h]
    · intro h
      simp [ensureDirList, h]

/-- Witness for C7's amended theorem: draw 0 is in range, distinct draws 7
and 8 give distinct identifiers, and allocation creates the directory. -/
theorem part001_allocate_amended_witness :
    (10000000 ≤ generateRandomId 0 ∧ generateRandomId 0 ≤ 99999999) ∧
    (part001AllocIds "2347087243475" [7, 8]).Nodup ∧
    ["session", "2347087243475-10000007"] ∈
      ensureDirList [] ["session", "2347087243475-10000007"] :=
  ⟨part001_allocate_amended.1 0 (by decide),
   part001_allocate_amended.2.1 "2347087243475" [7, 8] (by decide),
   (part001_allocate_amended.2.2 [] ["session", "2347087243475-10000007"]).1⟩

/-! ## The `/pair` HTTP route

Embedding of the part_001 `/pair` handler (lines 199-242): guard on the
`q` query parameter (JS falsiness: absent or empty string), allocate the
session name and directory, run the retry loop, format the code, answer
200/500; with no `q` it answers `400 {error}` before any allocation. -/

/-- An HTTP response of the `/pair` route: status, whether the JSON body is
an `{error}` body, and the `pairing_code` / `session_id` fields of a
success body. -/
structure HttpResp where
  status : Nat
  hasError : Bool
  pairingCode : Option String
  sessionId : Option String
deriving DecidableEq, Repr

/-- The part_001 `/pair` handler: returns the response and the directory
set after the request (`r` models the random draw, `oracle` the underlying
`requestPairingCode` collaborator, `dirs` the pre-request directories). -/
def pairRoute (q : Option String) (r : Nat) (oracle : Nat → Option String)
    (dirs : List (List String)) : HttpResp × List (List String) :=
  match q with
  | none =>
    ({ status := 400, hasError := true, pairingCode := none,
       sessionId := none }, dirs)
  | some phone =>
    if phone = "" then
      ({ status := 400, hasError := true, pairingCode := none,
         sessionId := none }, dirs)
    else
      let sessionName := part001SessionName phone r
      let dirs1 := ensureDirList dirs (sessionDirP ++ [sessionName])
      match (requestPairingCode3 oracle).1 with
      | Except.error _ =>
        ({ status := 500, hasError := true, pairingCode := none,
           sessionId := none }, dirs1)
      | Except.ok c =>
        ({ status := 200, hasError := false,
           pairingCode := some (formatCode c),
           sessionId := some sessionName }, dirs1)

/-- C9: a `GET /pair` request with no `q` query parameter returns status
400 with an error JSON body, no pairing code and no session id, and
performs no session allocation: the directory set is returned unchanged,
whatever the random draw and the underlying collaborator would have
done. -/
theorem pairRoute_missing_q (r : Nat) (oracle : Nat → Option String)
    (dirs : List (List String)) :
    pairRoute none r oracle dirs =
      ({ status := 400, hasError := true, pairingCode := none,
         sessionId := none }, dirs) :=
  rfl

/-! ## Shared state across concurrent pairing requests

server.js `/pair` (lines 140-143) fixes `sessionName = 'session'` and
`sessionPath = sessionDir` for every request, zips to
`getSessionZipPath('session')` (line 165), and binds the module-level
`store` (lines 31-34) to every request's socket (line 161). -/

/-- The session resources a single `/pair` request of server.js binds: the
session name, the session directory, the archive path, and the identity of
the in-memory store object bound to the socket (the module-level singleton,
identity 0). -/
structure PairSetup where
  sessionName : String
  sessionPath : List String
  zipPath : List String
  storeId : Nat
deriving DecidableEq, Repr

/-- The resources server.js `/pair` uses for a request: independent of the
phone number, every request gets the fixed 'session' directory, the fixed
archive path, and the single module-level store. -/
def serverJsPairSetup (_phone : String) : PairSetup :=
  { sessionName := "session"
    sessionPath := sessionDirP
    zipPath := getSessionZipPath "session"
    storeId := 0 }

/-- C3 counterexample: two distinct concurrent pairing requests (phone
numbers "111" and "222") in server.js share the session directory, the
archive path, and the in-memory store object — they do NOT each get their
own directory, archive path, and unshared store. -/
theorem serverJs_pair_shared_state_cx :
    ("111" : String) ≠ "222" ∧
    (serverJsPairSetup "111").sessionPath = (serverJsPairSetup "222").sessionPath ∧
    (serverJsPairSetup "111").zipPath = (serverJsPairSetup "222").zipPath ∧
    (serverJsPairSetup "111").storeId = (serverJsPairSetup "222").storeId :=
  ⟨by decide, rfl, rfl, rfl⟩

/-- C3 amended: in server.js, any two pairing requests bind identical
session resources — the same 'session' directory, the same archive path,
and the one module-level store object; per-request isolation of mutable
state does not hold (each request only gets a fresh socket object). -/
theorem serverJs_pair_shared_state (p1 p2 : String) :
    serverJsPairSetup p1 = serverJsPairSetup p2 :=
  rfl

/-! ## Connection-close handling

Embedding of the `connection.update` handlers.  On close they compute
`shouldReconnect = lastDisconnect?.error?.output?.statusCode !==
DisconnectReason.loggedOut` (an absent status compares unequal, hence
reconnects) and, if it holds, re-invoke a start routine.  part_000's `/pair`
handler (lines 194-204) calls `startSocket()` — part_000's DEFAULT start
routine, which takes no argument and always binds the fixed 'session'
directory (line 63) — even though the closing socket belongs to the
per-request session `session-<phone>-<randomId>`.  server.js's `/pair`
handler (lines 170-180) calls `startDefaultSocket()`, and its `/pair`
session IS the default 'session'. -/

/-- The close-status structure of a `connection.update` event:
`lastDisconnect?.error?.output?.statusCode` flattened to an optional
code. -/
structure ConnUpdate where
  connection : Option String
  statusCode : Option Nat
deriving DecidableEq, Repr

/-- Modelled from the spec: `DisconnectReason.loggedOut`, the known
"logged-out" close status of the external connection library (the library
itself is outside this repository); its concrete value is opaque to the
handlers, which only compare against it. -/
def loggedOutCode : Nat := 401

/-- The session names part_000's `/pair` close handler re-starts for an
update: one `startSocket()` call — which binds the fixed 'session'
directory — per non-logout close, nothing otherwise.  The handler ignores
the session it supervises. -/
def part000PairCloseRestarts (_sessionName : String) (u : ConnUpdate) :
    List String :=
  if u.connection = some "close" then
    if u.statusCode ≠ some loggedOutCode then ["session"] else []
  else []

/-- The session names server.js's `/pair` close handler re-starts:
`startDefaultSocket()` binds the 'session' directory. -/
def serverJsPairCloseRestarts (u : ConnUpdate) : List String :=
  if u.connection = some "close" then
    if u.statusCode ≠ some loggedOutCode then ["session"] else []
  else []

/-- C1: evaluation at the failing input.  A non-logout close of part_000's
per-request session "session-2347087243475-12345678" triggers exactly one
restart, but of the DEFAULT 'session' session — a different session than
the one that closed — contradicting "re-invoking the start routine for the
same session, not a different one"; a logout close correctly triggers no
restart; in server.js the one restart targets 'session', which is that
variant's `/pair` session name. -/
theorem part000_reconnect_wrong_session :
    part000PairCloseRestarts "session-2347087243475-12345678"
        { connection := some "close", statusCode := some 428 } = ["session"] ∧
    "session" ≠ "session-2347087243475-12345678" ∧
    part000PairCloseRestarts "session-2347087243475-12345678"
        { connection := some "close", statusCode := some loggedOutCode } = [] ∧
    serverJsPairCloseRestarts
        { connection := some "close", statusCode := some 428 } = ["session"] :=
  ⟨by decide, by decide, by decide, by decide⟩
